import Mathlib

/-!
Verification of the AI-Job-Agent pipeline (`backend/app.py`).

The development shallowly embeds the program's data model and core
operations: the SQLite-backed job store (`add_or_update_job`,
`set_job_status`, `record_application`), the scraper recency filter shared
by `search_indeed`/`search_naukri`, the Selenium apply executor
(`apply_to_job`), the IMAP reply matcher (`check_gmail_and_update`) and the
orchestrator (`run_full_cycle`).  External collaborators (HTML pages, the
browser, the LLM, the inbox) are modelled as explicit inputs describing
their observable behaviour; the database is modelled as in-memory lists of
rows threaded through the operations.
-/

namespace JobAgent

/-! ### ASCII string helpers (model of Python `str.lower`, `in`, `startswith`) -/

/-- ASCII lower-casing of one character, modelling Python `str.lower` on the
ASCII range used by the program's markers and statuses. -/
def lowerChar (c : Char) : Char :=
  if 'A' ≤ c && c ≤ 'Z' then Char.ofNat (c.toNat + 32) else c

/-- Lower-case a string character-wise. -/
def lowerStr (s : String) : String := ⟨s.data.map lowerChar⟩

/-- `listLeads nd l` : `nd` is a leading segment of `l`. -/
def listLeads : List Char → List Char → Bool
  | [], _ => true
  | _ :: _, [] => false
  | a :: as, b :: bs => a == b && listLeads as bs

/-- `hasSubList nd hay` : `nd` occurs contiguously inside `hay`
(model of Python `nd in hay` on strings). -/
def hasSubList : List Char → List Char → Bool
  | nd, [] => listLeads nd []
  | nd, h :: t => listLeads nd (h :: t) || hasSubList nd t

/-- `hasSub hay nd` : the string `nd` occurs inside the string `hay`. -/
def hasSub (hay nd : String) : Bool := hasSubList nd.data hay.data

/-- `strLeads s pre` : `s` starts with `pre` (Python `s.startswith(pre)`). -/
def strLeads (s pre : String) : Bool := listLeads pre.data s.data

/-- Drop leading whitespace characters. -/
def dropWs : List Char → List Char
  | [] => []
  | c :: t => if c.isWhitespace then dropWs t else c :: t

/-- Python `str.strip()`: remove whitespace from both ends. -/
def pyStrip (s : String) : String := ⟨(dropWs (dropWs s.data).reverse).reverse⟩

/-! ### Data model: the two SQLite tables -/

/-- One row of the `jobs` table.  `url` and `applied_at` may be SQL `NULL`
(the scraper can produce a `None` url and inserts never set `applied_at`). -/
structure Job where
  job_id : String
  title : String
  company : String
  location : String
  url : Option String
  posted_date : String
  status : String
  notes : String
  applied_at : Option String
deriving DecidableEq

/-- The dictionary handed to `add_or_update_job`: `status` and `notes` are
looked up with `job.get('status','new')` / `job.get('notes','')`, so they are
optional. -/
structure JobInput where
  job_id : String
  title : String
  company : String
  location : String
  url : Option String
  posted_date : String
  status : Option String
  notes : Option String
deriving DecidableEq

/-- One row of the append-only `applications` table. -/
structure AppRow where
  job_id : String
  cover : String
  resume_path : String
  attempt_time : String
  result : String
deriving DecidableEq

/-- The persistent state: both tables. -/
structure DB where
  jobs : List Job
  apps : List AppRow
deriving DecidableEq

/-! ### Store operations -/

/-- The row built by the `INSERT` branch of `add_or_update_job`: the listed
columns are set, `status`/`notes` default to `"new"`/`""`, and `applied_at`
is not in the column list, hence `NULL`. -/
def new_row (j : JobInput) : Job :=
  { job_id := j.job_id, title := j.title, company := j.company,
    location := j.location, url := j.url, posted_date := j.posted_date,
    status := j.status.getD ("new"), notes := j.notes.getD (""),
    applied_at := none }

/-- Effect of the `UPDATE` branch of `add_or_update_job` on one row: the
five descriptive columns are overwritten on the matching row, every other
row is untouched. -/
def desc_upd (j : JobInput) (r : Job) : Job :=
  if r.job_id == j.job_id then
    { r with title := j.title, company := j.company, location := j.location,
             url := j.url, posted_date := j.posted_date }
  else r

/-- `add_or_update_job`: try the `INSERT`; on the UNIQUE(job_id) violation
(`sqlite3.IntegrityError`, i.e. a row with this `job_id` already exists)
fall back to an `UPDATE` of the five descriptive columns only. -/
def add_or_update_job (jobs : List Job) (j : JobInput) : List Job :=
  if jobs.any (fun r => r.job_id == j.job_id) then jobs.map (desc_upd j)
  else jobs ++ [new_row j]

/-- Effect of `UPDATE jobs SET status=?, notes=? WHERE job_id=?` on one
row. -/
def set_upd (job_id status notes : String) (r : Job) : Job :=
  if r.job_id == job_id then { r with status := status, notes := notes } else r

/-- `set_job_status`: `UPDATE jobs SET status=?, notes=? WHERE job_id=?`.
Rows whose `job_id` differs are untouched; if no row matches, the update
affects nothing and raises no error. -/
def set_job_status (jobs : List Job) (job_id status notes : String) : List Job :=
  jobs.map (set_upd job_id status notes)

/-- `record_application`: append-only `INSERT` into `applications`. -/
def record_application (apps : List AppRow)
    (job_id cover resume_path attempt_time result : String) : List AppRow :=
  apps ++ [{ job_id := job_id, cover := cover, resume_path := resume_path,
             attempt_time := attempt_time, result := result }]

/-- Number of `jobs` rows carrying a given `job_id`. -/
def count_id (jobs : List Job) (id : String) : Nat :=
  (jobs.filter (fun r => r.job_id == id)).length

/-- Status of the first `jobs` row carrying a given `job_id`, if any. -/
def status_of (jobs : List Job) (id : String) : Option String :=
  (jobs.find? (fun r => r.job_id == id)).map (fun r => r.status)

/-! ### Scraper (`search_indeed` / `search_naukri`): the shared recency filter -/

/-- One scraped listing card, after the HTML selector extraction of both
`search_indeed` and `search_naukri`: an optional title, a company (defaulted
to `"Unknown"` upstream when the tag is missing, hence a plain string here),
a location, an optional link and the posted-date text (empty when the tag is
missing). -/
structure RawCard where
  title : Option String
  company : String
  location : String
  url : Option String
  posted : String
deriving DecidableEq

/-- The recency filter both search functions apply to a card's posted-date
text: `posted and ("today" in posted.lower() or "just posted" in
posted.lower() or "1 day" in posted.lower())`. -/
def recent_posted (posted : String) : Bool :=
  posted != "" &&
    (hasSub (lowerStr posted) ("today") ||
     hasSub (lowerStr posted) ("just posted") ||
     hasSub (lowerStr posted) ("1 day"))

/-- The record both search functions build from a card that passed the
filter: `job_id` is `(company + "|" + (title or "") + "|" + (job_url or
""))[:200]`, `posted_date` is today's date, status `"new"`, notes `""`. -/
def card_record (c : RawCard) (today : String) : JobInput :=
  { job_id := ⟨(c.company ++ "|" ++ c.title.getD ("") ++ "|" ++
                (c.url.getD (""))).data.take 200⟩,
    title := c.title.getD ("Unknown"), company := c.company,
    location := c.location, url := c.url, posted_date := today,
    status := some ("new"), notes := some ("") }

/-- The card loop shared by `search_indeed` and `search_naukri`: every card
whose posted-date text passes `recent_posted` is turned into a record and
appended to `results`; every other card is dropped. -/
def search_site (cards : List RawCard) (today : String) : List JobInput :=
  (cards.filter (fun c => recent_posted c.posted)).map (fun c => card_record c today)

/-! ### Apply executor (`apply_to_job`) -/

/-- Observable behaviour of the Selenium session for one job:
whether the driver could be created and the page loaded (`driverOk`, the
outer `try`), whether the file-input stage ran to completion (`fileStageOk`,
the inner `try`: file input found, resume uploaded, optional submit click),
and the `str(e)` texts of the exceptions otherwise. -/
structure SeleniumEnv where
  driverOk : Bool
  fileStageOk : Bool
  innerDetail : String
  driverDetail : String
deriving DecidableEq

/-- The executor's returned dictionary: a `result` tag and an optional
`detail` (the `no_url` return carries no `detail` key). -/
structure ApplyRes where
  result : String
  detail : Option String
deriving DecidableEq

/-- `apply_to_job`: `no_url` when `job.get("url")` is falsy (`None` or the
empty string); otherwise drive the browser.  The inner `try` returns
`applied` on success and `manual_required` on any exception; the outer
`try` returns `selenium_error` when the session cannot be established. -/
def apply_to_job (url : Option String) (env : SeleniumEnv) : ApplyRes :=
  match url with
  | none => { result := "no_url", detail := none }
  | some u =>
    if u == "" then { result := "no_url", detail := none }
    else if env.driverOk then
      if env.fileStageOk then
        { result := "applied", detail := some ("file-uploaded-and-clicked") }
      else
        { result := "manual_required",
          detail := some ("no file input or error: " ++ env.innerDetail) }
    else { result := "selenium_error", detail := some env.driverDetail }

/-- Python's `str(result)` on the executor's dictionary, as stored in
`notes` / `applications.result` by the orchestrator. -/
def pyStrOfRes (r : ApplyRes) : String :=
  "\x7b\x27result\x27: \x27" ++ r.result ++ "\x27" ++
    (match r.detail with
     | none => ""
     | some d => ", \x27detail\x27: \x27" ++ d ++ "\x27") ++ "\x7d"

/-! ### Reply matcher (`check_gmail_and_update`)

The fetched header blob of a message is modelled as its decoded lines
(`hdr.splitlines()`), or `none` when the `BODY[HEADER.FIELDS ...]` item is
absent so that `.decode` raises inside the per-message `try`.  The code
initialises `subject_raw = b\"\"` (a *bytes* literal) and `frm = \"\"`; a
`Subject:` line replaces it by a `str`.  The variable holding the subject is
therefore either a str or the leftover bytes value, which we track with
`SubjVal`: concatenating the bytes value into the match haystack raises a
`TypeError` in Python. -/

/-- Python value of the `subj` variable: a proper `str`, or the leftover
`b""` bytes object. -/
inductive SubjVal where
  | pystr : String → SubjVal
  | pybytes : String → SubjVal
deriving DecidableEq

/-- One fetched inbox message: the decoded header lines, or `none` when the
header item is missing and the extraction `try` fails. -/
structure MailMsg where
  header : Option (List String)
deriving DecidableEq

/-- The line loop of the extractor: a line whose lower-casing starts with
`"subject:"` sets the subject (a str) to the rest, stripped; a `"from:"`
line sets the sender likewise.  Later lines overwrite earlier ones. -/
def parse_header_lines : List String → String → SubjVal → String × SubjVal
  | [], frm, subj => (frm, subj)
  | l :: rest, frm, subj =>
    let low := lowerStr l
    let subj2 := if strLeads low ("subject:") then SubjVal.pystr (pyStrip (l.drop 8)) else subj
    let frm2 := if strLeads low ("from:") then pyStrip (l.drop 5) else frm
    parse_header_lines rest frm2 subj2

/-- Header extraction for one message: start from `frm = ""` and
`subject_raw = b""`; on a missing header blob the `except` branch yields
`subj = ""` (a str). -/
def extract_msg : Option (List String) → String × SubjVal
  | none => ("", SubjVal.pystr (""))
  | some lines => parse_header_lines lines ("") (SubjVal.pybytes (""))

/-- `status NOT IN ('replied','hired','closed')`: the eligibility test of
the per-message job query. -/
def eligible_status (s : String) : Bool :=
  !(s == "replied" || s == "hired" || s == "closed")

/-- The match haystack: `frm.lower() + " " + subj.lower()`. -/
def hay (frm subj : String) : String := lowerStr frm ++ " " ++ lowerStr subj

/-- The notes written on a match: `f"Email matched: {subj} from {frm}"`. -/
def note_of (frm subj : String) : String :=
  "Email matched: " ++ subj ++ " from " ++ frm

/-- Whether the matcher's per-pair test fires: company truthy and
`company.lower() in (frm.lower() + " " + subj.lower())`. -/
def hitP (frm subj : String) (p : String × String) : Bool :=
  p.2 != "" && hasSub (hay frm subj) (lowerStr p.2)

/-- The inner loop over the snapshot of eligible `(job_id, company)` pairs
for one message.  A truthy company with the bytes subject evaluates
`str + bytes` and raises `TypeError`: the third component records this
crash, which aborts the whole call (updates already written remain). -/
def matchLoop (frm : String) (subj : SubjVal) (store : List Job)
    (upd : List String) : List (String × String) → List Job × List String × Bool
  | [] => (store, upd, false)
  | (jid, comp) :: rest =>
    if comp == "" then matchLoop frm subj store upd rest
    else
      match subj with
      | SubjVal.pybytes _ => (store, upd, true)
      | SubjVal.pystr s =>
        if hasSub (hay frm s) (lowerStr comp) then
          matchLoop frm subj
            (set_job_status store jid ("replied") (note_of frm s))
            (upd ++ [jid]) rest
        else matchLoop frm subj store upd rest

/-- The snapshot of eligible `(job_id, company)` pairs the matcher queries
before each message (`SELECT job_id, company, status FROM jobs WHERE status
NOT IN ...` followed by `fetchall`). -/
def snap_of (store : List Job) : List (String × String) :=
  (store.filter (fun r => eligible_status r.status)).map (fun r => (r.job_id, r.company))

/-- The outer loop over fetched messages: per message, extract the headers,
re-query the eligible jobs, and run the match loop; a crash aborts the
remaining messages. -/
def msgLoop (store : List Job) (upd : List String) :
    List MailMsg → List Job × List String × Bool
  | [] => (store, upd, false)
  | m :: rest =>
    if (matchLoop (extract_msg m.header).1 (extract_msg m.header).2 store upd
        (snap_of store)).2.2 then
      matchLoop (extract_msg m.header).1 (extract_msg m.header).2 store upd (snap_of store)
    else
      msgLoop
        (matchLoop (extract_msg m.header).1 (extract_msg m.header).2 store upd
          (snap_of store)).1
        (matchLoop (extract_msg m.header).1 (extract_msg m.header).2 store upd
          (snap_of store)).2.1 rest

/-- Result of one `check_gmail_and_update` call: the jobs table afterwards,
the `job_id`s updated in order, whether the call crashed with the
`TypeError`, and the function's Python return value (always `None`: the
function has no `return <value>` statement). -/
structure GmailOut where
  jobs : List Job
  updated : List String
  crashed : Bool
  ret : Option Nat
deriving DecidableEq

/-- `check_gmail_and_update`: skip everything when credentials are unset or
no message matched the `SINCE` search; otherwise run the message loop. -/
def check_gmail_and_update (creds : Bool) (store : List Job)
    (msgs : List MailMsg) : GmailOut :=
  if creds then
    if msgs.isEmpty then { jobs := store, updated := [], crashed := false, ret := none }
    else
      let out := msgLoop store [] msgs
      { jobs := out.1, updated := out.2.1, crashed := out.2.2, ret := none }
  else { jobs := store, updated := [], crashed := false, ret := none }

/-! ### Orchestrator (`run_full_cycle`) -/

/-- The configured resume path (`RESUME_PATH`). -/
def RESUME_PATH : String := "./resume/my_resume.pdf"

/-- The external world of one cycle: the scraped cards and today's date,
the apply mode (`APPLY_MODE == "auto"`), the per-job browser behaviour, the
LLM's cover text per job, the attempt timestamp, whether Gmail credentials
are set, whether the IMAP connection succeeds, and the fetched messages. -/
structure CycleEnv where
  cards : List RawCard
  today : String
  autoMode : Bool
  sel : String → SeleniumEnv
  cover : String → String
  now : String
  creds : Bool
  gmailConnects : Bool
  msgs : List MailMsg

/-- The executor outcome `run_full_cycle` sees for a snapshot row. -/
def exec_result (env : CycleEnv) (r : Job) : ApplyRes :=
  apply_to_job r.url (env.sel r.job_id)

/-- The one status the draft-and-apply stage writes for a snapshot row. -/
def transStatus (env : CycleEnv) (r : Job) : String :=
  if env.autoMode then
    if (exec_result env r).result == "applied" then "applied"
    else if (exec_result env r).result == "manual_required" then "queued_manual"
    else "error"
  else "queued_manual"

/-- The notes written together with that status. -/
def transNotes (env : CycleEnv) (r : Job) : String :=
  if env.autoMode then
    if (exec_result env r).result == "applied" then pyStrOfRes (exec_result env r)
    else if (exec_result env r).result == "manual_required" then
      (exec_result env r).detail.getD ("")
    else pyStrOfRes (exec_result env r)
  else "Awaiting manual approval to apply"

/-- The `result` column of the Application row the stage records. -/
def appResultStr (env : CycleEnv) (r : Job) : String :=
  if env.autoMode then pyStrOfRes (exec_result env r) else "queued_for_manual"

/-- The Application row the stage records for a snapshot row. -/
def app_row (env : CycleEnv) (r : Job) : AppRow :=
  { job_id := r.job_id, cover := env.cover r.job_id, resume_path := RESUME_PATH,
    attempt_time := env.now, result := appResultStr env r }

/-- The loop of the draft-and-apply stage over the `status='new'` snapshot:
per row, one `record_application` and one `set_job_status` (auto mode
branches on the executor's outcome; manual mode queues).  Also returns the
log of `(job_id, status)` transitions performed, in order. -/
def dnaLoop (env : CycleEnv) (db : DB) :
    List Job → DB × List (String × String)
  | [] => (db, [])
  | r :: rest =>
    let coverText := env.cover r.job_id
    let db1 : DB :=
      if env.autoMode then
        let res := apply_to_job r.url (env.sel r.job_id)
        let apps2 := record_application db.apps r.job_id coverText RESUME_PATH env.now (pyStrOfRes res)
        let dbA : DB := { db with apps := apps2 }
        if res.result == "applied" then
          { dbA with jobs := set_job_status dbA.jobs r.job_id ("applied") (pyStrOfRes res) }
        else if res.result == "manual_required" then
          { dbA with jobs := set_job_status dbA.jobs r.job_id ("queued_manual") (res.detail.getD ("")) }
        else
          { dbA with jobs := set_job_status dbA.jobs r.job_id ("error") (pyStrOfRes res) }
      else
        let apps2 := record_application db.apps r.job_id coverText RESUME_PATH env.now ("queued_for_manual")
        let dbA : DB := { db with apps := apps2 }
        { dbA with jobs := set_job_status dbA.jobs r.job_id ("queued_manual") ("Awaiting manual approval to apply") }
    let out := dnaLoop env db1 rest
    (out.1, (r.job_id, transStatus env r) :: out.2)

/-- The draft-and-apply stage: snapshot the `status='new'` rows
(`SELECT ... WHERE status='new'` + `fetchall`), then loop. -/
def run_draft_and_apply (db : DB) (env : CycleEnv) : DB × List (String × String) :=
  dnaLoop env db (db.jobs.filter (fun r => r.status == "new"))

/-- `run_full_cycle`: scrape, upsert every found record, draft-and-apply
over the `new` snapshot, then the Gmail check inside `try/except` (a
connection failure or the matcher's `TypeError` is swallowed; updates
written before a crash remain). -/
def run_full_cycle (db : DB) (env : CycleEnv) : DB :=
  let found := search_site env.cards env.today
  let db1 : DB := { db with jobs := found.foldl add_or_update_job db.jobs }
  let db2 : DB := (run_draft_and_apply db1 env).1
  if env.gmailConnects then
    { db2 with jobs := (check_gmail_and_update env.creds db2.jobs env.msgs).jobs }
  else db2

/-- The core operations a job can be subjected to, per claim C3. -/
inductive CoreOp where
  | upsert : JobInput → CoreOp
  | cycle : CycleEnv → CoreOp
  | reconcile : Bool → Bool → List MailMsg → CoreOp

/-- Apply one core operation to the store (a standalone reconcile is also
run inside `try/except` by its callers, so a crash keeps partial updates). -/
def apply_op (db : DB) : CoreOp → DB
  | CoreOp.upsert j => { db with jobs := add_or_update_job db.jobs j }
  | CoreOp.cycle env => run_full_cycle db env
  | CoreOp.reconcile creds connects msgs =>
    if connects then
      { db with jobs := (check_gmail_and_update creds db.jobs msgs).jobs }
    else db

/-- Run a sequence of core operations. -/
def run_ops (db : DB) : List CoreOp → DB
  | [] => db
  | op :: rest => run_ops (apply_op db op) rest

/-! ### Derived views of the loops, used to state and prove the claims -/

/-- A fold of conditional `set_job_status` calls over a list: the common
shape of the draft-and-apply loop and the matcher's inner loop.  `f x`
yields `some (job_id, status, notes)` when the iteration updates, `none`
when it skips. -/
def foldSet {α : Type} (f : α → Option (String × String × String))
    (L : List α) (jobs : List Job) : List Job :=
  L.foldl (fun js x =>
    match f x with
    | some p => set_job_status js p.1 p.2.1 p.2.2
    | none => js) jobs

/-- The jobs-table effect of the draft-and-apply loop: one unconditional
status update per snapshot row. -/
def dnaJobs (env : CycleEnv) (rows jobs : List Job) : List Job :=
  foldSet (fun r => some (r.job_id, transStatus env r, transNotes env r)) rows jobs

/-- The update one snapshot pair induces for one message: `some` exactly
when the pair's company is truthy and occurs in the haystack. -/
def hit_upd (frm s : String) (p : String × String) : Option (String × String × String) :=
  if hitP frm s p then some (p.1, "replied", note_of frm s) else none

/-- The jobs-table effect of one message of the matcher: one `"replied"`
update per hit pair of the snapshot. -/
def applyHits (frm s : String) (pairs : List (String × String))
    (jobs : List Job) : List Job :=
  foldSet (hit_upd frm s) pairs jobs

/-- The `job_id`s a message's match loop appends to the update log. -/
def hitsOf (frm s : String) (pairs : List (String × String)) : List String :=
  (pairs.filter (hitP frm s)).map Prod.fst

/-- The text of the subject variable (its str content, or the content of
the leftover bytes object). -/
def subjText : SubjVal → String
  | SubjVal.pystr s => s
  | SubjVal.pybytes s => s

/-- The notes a match writes for a message. -/
def matchNote (m : MailMsg) : String :=
  note_of (extract_msg m.header).1 (subjText (extract_msg m.header).2)

/-- Whether a message's extracted headers match a company: the company is
truthy and occurs in `frm.lower() + " " + subj.lower()` (false when the
subject is the leftover bytes value, where the code would crash instead). -/
def msgMatches (m : MailMsg) (company : String) : Bool :=
  match extract_msg m.header with
  | (frm, SubjVal.pystr s) => hasSub (hay frm s) (lowerStr company)
  | (_, SubjVal.pybytes _) => false

/-- A message is well formed when its extraction leaves a str subject
(i.e. the header blob was missing, or contained a `Subject:` line). -/
def wellFormedMsg (m : MailMsg) : Bool :=
  match (extract_msg m.header).2 with
  | SubjVal.pystr _ => true
  | SubjVal.pybytes _ => false

/-- The row a matched job becomes. -/
def mark_replied (r : Job) (m : MailMsg) : Job :=
  { r with status := "replied", notes := matchNote m }

/-- Some row of the store carries this `job_id`. -/
def has_id (jobs : List Job) (id : String) : Prop :=
  ∃ r ∈ jobs, r.job_id = id

/-- Every row carrying this `job_id` has a status other than `"new"`: the
invariant of claim C3. -/
def no_new (jobs : List Job) (id : String) : Prop :=
  ∀ r ∈ jobs, r.job_id = id → r.status ≠ "new"

/-! ### Concrete instances used to instantiate the theorems -/

/-- A sample stored job from the spec's scenario. -/
def acmeJob : Job :=
  { job_id := "Acme|SWE|https://x/1", title := "SWE", company := "Acme",
    location := "India", url := some ("https://x/1"), posted_date := "2026-10-12",
    status := "new", notes := "", applied_at := none }

/-- The same job as an ingestion record with `status`/`notes` absent. -/
def acmeInput : JobInput :=
  { job_id := "Acme|SWE|https://x/1", title := "SWE", company := "Acme",
    location := "India", url := some ("https://x/1"), posted_date := "2026-10-12",
    status := none, notes := none }

/-- A well-formed reply message from the spec's scenario. -/
def acmeMsg : MailMsg := { header := some (["From: hr@acme.com", "Subject: Interview"]) }

/-- A message whose fetched header has a `From:` line but no `Subject:`
line, so the bytes initialiser of `subject_raw` survives extraction. -/
def noSubjectMsg : MailMsg := { header := some (["From: hr@acme.com"]) }

/-- A browser environment in which the session cannot be established. -/
def deadDriver : SeleniumEnv :=
  { driverOk := false, fileStageOk := true, innerDetail := "", driverDetail := "no chromedriver" }

/-- The stored Acme job after a reply has been matched. -/
def repliedJob : Job := { acmeJob with status := "replied", notes := "Email matched" }

/-- A concrete manual-mode cycle environment with nothing scraped and no
mail stage. -/
def manualEnv : CycleEnv :=
  { cards := [], today := "2026-10-12", autoMode := false,
    sel := fun _ => deadDriver, cover := fun _ => "cover", now := "t0",
    creds := false, gmailConnects := false, msgs := [] }

/-- A one-job store with an empty applications table. -/
def dbAcme : DB := { jobs := [acmeJob], apps := [] }

/-! ### Helper lemmas on the row updaters -/

lemma set_upd_job_id (id st n : String) (r : Job) : (set_upd id st n r).job_id = r.job_id := by
  unfold set_upd; split <;> rfl

lemma set_upd_company (id st n : String) (r : Job) : (set_upd id st n r).company = r.company := by
  unfold set_upd; split <;> rfl

lemma desc_upd_keeps (j : JobInput) (r : Job) :
    (desc_upd j r).job_id = r.job_id ∧ (desc_upd j r).status = r.status ∧
    (desc_upd j r).notes = r.notes ∧ (desc_upd j r).applied_at = r.applied_at := by
  unfold desc_upd; split <;> exact ⟨rfl, rfl, rfl, rfl⟩

lemma set_job_status_nil (id st n : String) : set_job_status [] id st n = [] := rfl

lemma mem_set_job_status_ne {r : Job} {jobs : List Job} (hr : r ∈ jobs) {id : String}
    (hne : r.job_id ≠ id) (st n : String) : r ∈ set_job_status jobs id st n := by
  have h := List.mem_map_of_mem (set_upd id st n) hr
  rwa [show set_upd id st n r = r by unfold set_upd; simp [hne]] at h

lemma mem_set_job_status_eq {r : Job} {jobs : List Job} (hr : r ∈ jobs) {id : String}
    (he : r.job_id = id) (st n : String) :
    { r with status := st, notes := n } ∈ set_job_status jobs id st n := by
  have h := List.mem_map_of_mem (set_upd id st n) hr
  rwa [show set_upd id st n r = { r with status := st, notes := n } by
    unfold set_upd; simp [he]] at h

/-- The identity-and-company view of a row; invariant under status updates. -/
def pidc (r : Job) : String × String := (r.job_id, r.company)

lemma set_job_status_pidc (jobs : List Job) (id st n : String) :
    (set_job_status jobs id st n).map pidc = jobs.map pidc := by
  unfold set_job_status
  rw [List.map_map]
  refine List.map_congr_left (fun r _ => ?_)
  show pidc (set_upd id st n r) = pidc r
  unfold pidc
  rw [set_upd_job_id, set_upd_company]

lemma set_job_status_ids (jobs : List Job) (id st n : String) :
    (set_job_status jobs id st n).map (fun r => r.job_id) = jobs.map (fun r => r.job_id) := by
  have h := congrArg (List.map Prod.fst) (set_job_status_pidc jobs id st n)
  rwa [List.map_map, List.map_map] at h

lemma count_id_map_of_keep {f : Job → Job} (hf : ∀ r, (f r).job_id = r.job_id)
    (jobs : List Job) (id : String) : count_id (jobs.map f) id = count_id jobs id := by
  unfold count_id
  induction jobs with
  | nil => rfl
  | cons r t ih =>
    simp only [List.map_cons, List.filter_cons, hf r]
    by_cases h : r.job_id == id
    · simp [h, ih]
    · simp [h, ih]

lemma status_of_map_of_keep {f : Job → Job} (hid : ∀ r, (f r).job_id = r.job_id)
    (hst : ∀ r, (f r).status = r.status) (jobs : List Job) (id : String) :
    status_of (jobs.map f) id = status_of jobs id := by
  unfold status_of
  induction jobs with
  | nil => rfl
  | cons r t ih =>
    simp only [List.map_cons]
    by_cases h : (r.job_id == id) = true
    · rw [@List.find?_cons_of_pos Job (fun r => r.job_id == id) (f r) (t.map f)
            (by show ((f r).job_id == id) = true; rw [hid r]; exact h),
          @List.find?_cons_of_pos Job (fun r => r.job_id == id) r t h]
      simp [hst r]
    · rw [@List.find?_cons_of_neg Job (fun r => r.job_id == id) (f r) (t.map f)
            (by show ¬((f r).job_id == id) = true; rw [hid r]; exact h),
          @List.find?_cons_of_neg Job (fun r => r.job_id == id) r t h]
      exact ih

lemma add_or_update_job_fresh {jobs : List Job} {j : JobInput}
    (h : ∀ r ∈ jobs, r.job_id ≠ j.job_id) :
    add_or_update_job jobs j = jobs ++ [new_row j] := by
  unfold add_or_update_job
  rw [if_neg]
  simp only [List.any_eq_true, beq_iff_eq, not_exists, not_and]
  intro r hr
  exact fun he => h r hr he

lemma desc_upd_match {j : JobInput} {r : Job} (he : r.job_id = j.job_id) :
    desc_upd j r = { r with title := j.title, company := j.company, location := j.location, url := j.url, posted_date := j.posted_date } := by
  unfold desc_upd; simp [he]

lemma add_or_update_job_exists {jobs : List Job} {j : JobInput}
    (r0 : Job) (hr0 : r0 ∈ jobs) (he : r0.job_id = j.job_id) :
    add_or_update_job jobs j = jobs.map (desc_upd j) := by
  unfold add_or_update_job
  rw [if_pos]
  rw [List.any_eq_true]
  exact ⟨r0, hr0, by simpa using he⟩

/-! ### Lemmas on `foldSet` and the draft-and-apply loop -/

lemma foldSet_nil {α : Type} (f : α → Option (String × String × String)) (jobs : List Job) :
    foldSet f [] jobs = jobs := rfl

lemma foldSet_cons {α : Type} (f : α → Option (String × String × String))
    (x : α) (L : List α) (jobs : List Job) :
    foldSet f (x :: L) jobs = foldSet f L
      (match f x with
       | some p => set_job_status jobs p.1 p.2.1 p.2.2
       | none => jobs) := rfl

lemma foldSet_append {α : Type} (f : α → Option (String × String × String))
    (L₁ L₂ : List α) (jobs : List Job) :
    foldSet f (L₁ ++ L₂) jobs = foldSet f L₂ (foldSet f L₁ jobs) := by
  unfold foldSet
  exact List.foldl_append ..

lemma foldSet_pidc {α : Type} (f : α → Option (String × String × String))
    (L : List α) (jobs : List Job) :
    (foldSet f L jobs).map pidc = jobs.map pidc := by
  induction L generalizing jobs with
  | nil => rfl
  | cons x t ih =>
    rw [foldSet_cons]
    cases hfx : f x with
    | none => rw [ih]
    | some p => rw [ih, set_job_status_pidc]

lemma foldSet_skip {α : Type} {f : α → Option (String × String × String)}
    {L : List α} {jobs : List Job} {r : Job} (hr : r ∈ jobs)
    (h : ∀ x ∈ L, ∀ p, f x = some p → p.1 ≠ r.job_id) :
    r ∈ foldSet f L jobs := by
  induction L generalizing jobs with
  | nil => exact hr
  | cons x t ih =>
    rw [foldSet_cons]
    cases hfx : f x with
    | none => exact ih hr (fun y hy => h y (List.mem_cons_of_mem x hy))
    | some p =>
      refine ih ?_ (fun y hy => h y (List.mem_cons_of_mem x hy))
      exact mem_set_job_status_ne hr
        (fun he => h x (List.mem_cons_self x t) p hfx he.symm) _ _

lemma foldSet_hit {α : Type} {f : α → Option (String × String × String)}
    {L₁ L₂ : List α} {jobs : List Job} {r : Job} {x : α} {s n : String}
    (hr : r ∈ jobs) (hfx : f x = some (r.job_id, s, n))
    (h1 : ∀ y ∈ L₁, ∀ p, f y = some p → p.1 ≠ r.job_id)
    (h2 : ∀ y ∈ L₂, ∀ p, f y = some p → p.1 ≠ r.job_id) :
    { r with status := s, notes := n } ∈ foldSet f (L₁ ++ x :: L₂) jobs := by
  rw [foldSet_append, foldSet_cons, hfx]
  have hr1 : r ∈ foldSet f L₁ jobs := foldSet_skip hr h1
  have hr2 : { r with status := s, notes := n }
      ∈ set_job_status (foldSet f L₁ jobs) r.job_id s n :=
    mem_set_job_status_eq hr1 rfl s n
  exact foldSet_skip hr2 h2

lemma count_id_eq_count (jobs : List Job) (id : String) :
    count_id jobs id = (jobs.map (fun r => r.job_id)).count id := by
  unfold count_id
  induction jobs with
  | nil => rfl
  | cons r t ih =>
    by_cases h : r.job_id = id
    · simp [List.filter_cons, List.count_cons, h, ih]
    · have h2 : ¬ id = r.job_id := fun he => h he.symm
      simp [List.filter_cons, List.count_cons, h, h2, ih]

lemma count_fst_map_of_keep {β : Type} {g : Job → β} {pj : β → String}
    (hg : ∀ r, pj (g r) = r.job_id) (rows : List Job) (id : String) :
    ((rows.map g).filter (fun b => pj b == id)).length = count_id rows id := by
  unfold count_id
  induction rows with
  | nil => rfl
  | cons r t ih =>
    simp only [List.map_cons, List.filter_cons, hg r]
    by_cases h : r.job_id == id
    · simp [h, ih]
    · simp [h, ih]

lemma transStatus_manual {env : CycleEnv} (ha : env.autoMode = false) (r : Job) :
    transStatus env r = "queued_manual" := by
  unfold transStatus
  rw [ha]
  rfl

lemma transStatus_ne_new (env : CycleEnv) (r : Job) : transStatus env r ≠ "new" := by
  unfold transStatus
  by_cases ha : env.autoMode
  · by_cases h1 : (exec_result env r).result = "applied"
    · simp [ha, h1]
    · by_cases h2 : (exec_result env r).result = "manual_required"
      · simp [ha, h1, h2]
      · simp [ha, h1, h2]
  · simp [ha]

lemma dnaLoop_eq (env : CycleEnv) : ∀ (rows : List Job) (db : DB),
    dnaLoop env db rows =
      ({ jobs := dnaJobs env rows db.jobs,
         apps := db.apps ++ rows.map (app_row env) },
       rows.map (fun r => (r.job_id, transStatus env r))) := by
  intro rows
  induction rows with
  | nil =>
    intro db
    simp [dnaLoop, dnaJobs, foldSet]
  | cons r t ih =>
    intro db
    by_cases ha : env.autoMode
    · by_cases h1 : (apply_to_job r.url (env.sel r.job_id)).result = "applied"
      · simp [dnaLoop, ih, dnaJobs, foldSet_cons, transStatus, transNotes, app_row,
          appResultStr, exec_result, record_application, ha, h1]
      · by_cases h2 : (apply_to_job r.url (env.sel r.job_id)).result = "manual_required"
        · simp [dnaLoop, ih, dnaJobs, foldSet_cons, transStatus, transNotes, app_row,
            appResultStr, exec_result, record_application, ha, h1, h2]
        · simp [dnaLoop, ih, dnaJobs, foldSet_cons, transStatus, transNotes, app_row,
            appResultStr, exec_result, record_application, ha, h1, h2]
    · simp [dnaLoop, ih, dnaJobs, foldSet_cons, transStatus, transNotes, app_row,
        appResultStr, exec_result, record_application, ha]

/-! ### Lemmas for the status-monotonicity invariant (claim C3) -/

lemma matchLoop_cons_empty {frm : String} {subj : SubjVal} {store : List Job}
    {upd : List String} {jid comp : String} {t : List (String × String)}
    (hc : (comp == "") = true) :
    matchLoop frm subj store upd ((jid, comp) :: t) = matchLoop frm subj store upd t := by
  simp only [matchLoop, hc, if_true]

lemma matchLoop_cons_bytes {frm s : String} {store : List Job}
    {upd : List String} {jid comp : String} {t : List (String × String)}
    (hc : (comp == "") = false) :
    matchLoop frm (SubjVal.pybytes s) store upd ((jid, comp) :: t) = (store, upd, true) := by
  simp only [matchLoop, hc, Bool.false_eq_true, if_false]

lemma matchLoop_cons_hit {frm s : String} {store : List Job}
    {upd : List String} {jid comp : String} {t : List (String × String)}
    (hc : (comp == "") = false) (hh : hasSub (hay frm s) (lowerStr comp) = true) :
    matchLoop frm (SubjVal.pystr s) store upd ((jid, comp) :: t)
      = matchLoop frm (SubjVal.pystr s)
          (set_job_status store jid ("replied") (note_of frm s)) (upd ++ [jid]) t := by
  simp only [matchLoop, hc, Bool.false_eq_true, if_false, hh, if_true]

lemma matchLoop_cons_miss {frm s : String} {store : List Job}
    {upd : List String} {jid comp : String} {t : List (String × String)}
    (hc : (comp == "") = false) (hh : hasSub (hay frm s) (lowerStr comp) = false) :
    matchLoop frm (SubjVal.pystr s) store upd ((jid, comp) :: t)
      = matchLoop frm (SubjVal.pystr s) store upd t := by
  simp only [matchLoop, hc, Bool.false_eq_true, if_false, hh]


lemma no_new_set {jobs : List Job} {id : String} (h : no_new jobs id)
    {idu st n : String} (hst : st ≠ "new") : no_new (set_job_status jobs idu st n) id := by
  intro r hr hid
  obtain ⟨y, hy, rfl⟩ := List.mem_map.mp hr
  rw [set_upd_job_id] at hid
  unfold set_upd
  by_cases hc : (y.job_id == idu) = true
  · simp only [hc, if_true]
    exact hst
  · simp only [hc, if_false, Bool.false_eq_true]
    exact h y hy hid

lemma no_new_foldSet {α : Type} {f : α → Option (String × String × String)}
    (hf : ∀ x p, f x = some p → p.2.1 ≠ "new") :
    ∀ (L : List α) {jobs : List Job} {id : String},
      no_new jobs id → no_new (foldSet f L jobs) id := by
  intro L
  induction L with
  | nil => intro jobs id h; exact h
  | cons x t ih =>
    intro jobs id h
    rcases hfx : f x with _ | p
    · rw [foldSet_cons, hfx]
      exact ih h
    · rw [foldSet_cons, hfx]
      exact ih (no_new_set h (hf x p hfx))

lemma no_new_matchLoop : ∀ (pairs : List (String × String)) (frm : String)
    (subj : SubjVal) (store : List Job) (upd : List String) {id : String},
    no_new store id → no_new (matchLoop frm subj store upd pairs).1 id := by
  intro pairs
  induction pairs with
  | nil => intro frm subj store upd id h; exact h
  | cons p t ih =>
    intro frm subj store upd id h
    obtain ⟨jid, comp⟩ := p
    by_cases hc : (comp == "") = true
    · rw [matchLoop_cons_empty hc]
      exact ih frm subj store upd h
    · rw [Bool.not_eq_true] at hc
      cases subj with
      | pybytes s =>
        rw [matchLoop_cons_bytes hc]
        exact h
      | pystr s =>
        by_cases hh : (hasSub (hay frm s) (lowerStr comp)) = true
        · rw [matchLoop_cons_hit hc hh]
          exact ih frm _ _ _ (no_new_set h (by decide))
        · rw [Bool.not_eq_true] at hh
          rw [matchLoop_cons_miss hc hh]
          exact ih frm _ _ _ h

lemma no_new_msgLoop : ∀ (msgs : List MailMsg) (store : List Job)
    (upd : List String) {id : String},
    no_new store id → no_new (msgLoop store upd msgs).1 id := by
  intro msgs
  induction msgs with
  | nil => intro store upd id h; exact h
  | cons m rest ih =>
    intro store upd id h
    unfold msgLoop
    have hm := no_new_matchLoop (snap_of store) (extract_msg m.header).1
      (extract_msg m.header).2 store upd h
    by_cases hcr : (matchLoop (extract_msg m.header).1 (extract_msg m.header).2 store upd
        (snap_of store)).2.2 = true
    · rw [if_pos hcr]
      exact hm
    · rw [if_neg hcr]
      exact ih _ _ hm

lemma no_new_gmail (creds : Bool) (store : List Job) (msgs : List MailMsg)
    {id : String} (h : no_new store id) :
    no_new (check_gmail_and_update creds store msgs).jobs id := by
  unfold check_gmail_and_update
  by_cases hc : creds = true
  · rw [if_pos hc]
    by_cases he : msgs.isEmpty = true
    · rw [if_pos he]
      exact h
    · rw [if_neg he]
      exact no_new_msgLoop msgs store [] h
  · rw [if_neg hc]
    exact h

lemma matchLoop_pidc : ∀ (pairs : List (String × String)) (frm : String)
    (subj : SubjVal) (store : List Job) (upd : List String),
    ((matchLoop frm subj store upd pairs).1).map pidc = store.map pidc := by
  intro pairs
  induction pairs with
  | nil => intro frm subj store upd; rfl
  | cons p t ih =>
    intro frm subj store upd
    obtain ⟨jid, comp⟩ := p
    by_cases hc : (comp == "") = true
    · rw [matchLoop_cons_empty hc]
      exact ih frm subj store upd
    · rw [Bool.not_eq_true] at hc
      cases subj with
      | pybytes s =>
        rw [matchLoop_cons_bytes hc]
      | pystr s =>
        by_cases hh : (hasSub (hay frm s) (lowerStr comp)) = true
        · rw [matchLoop_cons_hit hc hh]
          rw [ih, set_job_status_pidc]
        · rw [Bool.not_eq_true] at hh
          rw [matchLoop_cons_miss hc hh]
          exact ih frm _ _ _

lemma msgLoop_pidc : ∀ (msgs : List MailMsg) (store : List Job) (upd : List String),
    ((msgLoop store upd msgs).1).map pidc = store.map pidc := by
  intro msgs
  induction msgs with
  | nil => intro store upd; rfl
  | cons m rest ih =>
    intro store upd
    unfold msgLoop
    by_cases hcr : (matchLoop (extract_msg m.header).1 (extract_msg m.header).2 store upd
        (snap_of store)).2.2 = true
    · rw [if_pos hcr]
      exact matchLoop_pidc _ _ _ _ _
    · rw [if_neg hcr]
      rw [ih, matchLoop_pidc]

lemma gmail_pidc (creds : Bool) (store : List Job) (msgs : List MailMsg) :
    ((check_gmail_and_update creds store msgs).jobs).map pidc = store.map pidc := by
  unfold check_gmail_and_update
  by_cases hc : creds = true
  · rw [if_pos hc]
    by_cases he : msgs.isEmpty = true
    · rw [if_pos he]
    · rw [if_neg he]
      exact msgLoop_pidc msgs store []
  · rw [if_neg hc]

lemma has_id_of_pidc_eq {jobs jobs' : List Job}
    (h : jobs'.map pidc = jobs.map pidc) {id : String}
    (hex : has_id jobs id) : has_id jobs' id := by
  obtain ⟨r, hr, hid⟩ := hex
  have hmem : (id, r.company) ∈ jobs'.map pidc := by
    rw [h]
    exact hid ▸ List.mem_map_of_mem pidc hr
  obtain ⟨r', hr', hid'⟩ := List.mem_map.mp hmem
  exact ⟨r', hr', congrArg Prod.fst hid'⟩

lemma no_new_upsert {jobs : List Job} {id : String} (hex : has_id jobs id)
    (h : no_new jobs id) (j : JobInput) :
    has_id (add_or_update_job jobs j) id ∧ no_new (add_or_update_job jobs j) id := by
  by_cases hany : (jobs.any (fun r => r.job_id == j.job_id)) = true
  · have he : add_or_update_job jobs j = jobs.map (desc_upd j) := by
      unfold add_or_update_job
      rw [if_pos hany]
    rw [he]
    constructor
    · obtain ⟨r, hr, hid⟩ := hex
      exact ⟨desc_upd j r, List.mem_map_of_mem _ hr, by rw [(desc_upd_keeps j r).1]; exact hid⟩
    · intro r' hr' hid'
      obtain ⟨y, hy, rfl⟩ := List.mem_map.mp hr'
      rw [(desc_upd_keeps j y).1] at hid'
      rw [(desc_upd_keeps j y).2.1]
      exact h y hy hid'
  · have he : add_or_update_job jobs j = jobs ++ [new_row j] := by
      unfold add_or_update_job
      rw [if_neg hany]
    have hid_ne : id ≠ j.job_id := by
      intro heq
      obtain ⟨r, hr, hid⟩ := hex
      apply hany
      rw [List.any_eq_true]
      exact ⟨r, hr, by rw [beq_iff_eq, hid, heq]⟩
    rw [he]
    constructor
    · obtain ⟨r, hr, hid⟩ := hex
      exact ⟨r, List.mem_append_left _ hr, hid⟩
    · intro r' hr' hid'
      rcases List.mem_append.mp hr' with hl | hrr
      · exact h r' hl hid'
      · rw [List.mem_singleton] at hrr
        subst hrr
        exact absurd hid' (fun hh => hid_ne hh.symm)

lemma no_new_dna (db : DB) (env : CycleEnv) {id : String}
    (h1 : has_id db.jobs id) (h2 : no_new db.jobs id) :
    has_id (run_draft_and_apply db env).1.jobs id
    ∧ no_new (run_draft_and_apply db env).1.jobs id := by
  have hf : ∀ (x : Job) (p : String × String × String),
      (fun r => some (r.job_id, transStatus env r, transNotes env r)) x = some p
      → p.2.1 ≠ "new" := by
    intro x p hp
    have hp2 := Option.some.inj hp
    rw [← hp2]
    exact transStatus_ne_new env x
  have hdna := dnaLoop_eq env (db.jobs.filter (fun r => r.status == "new")) db
  unfold run_draft_and_apply
  rw [hdna]
  have hpidc : (dnaJobs env (db.jobs.filter (fun r => r.status == "new")) db.jobs).map pidc
      = db.jobs.map pidc := by
    unfold dnaJobs
    exact foldSet_pidc _ _ _
  refine ⟨has_id_of_pidc_eq hpidc h1, ?_⟩
  show no_new (dnaJobs env (db.jobs.filter (fun r => r.status == "new")) db.jobs) id
  unfold dnaJobs
  exact no_new_foldSet hf _ h2

lemma no_new_cycle {db : DB} {id : String} (hex : has_id db.jobs id)
    (h : no_new db.jobs id) (env : CycleEnv) :
    has_id (run_full_cycle db env).jobs id ∧ no_new (run_full_cycle db env).jobs id := by
  have hstep1 : ∀ (found : List JobInput) (jobs : List Job), has_id jobs id → no_new jobs id →
      has_id (found.foldl add_or_update_job jobs) id
      ∧ no_new (found.foldl add_or_update_job jobs) id := by
    intro found
    induction found with
    | nil => intro jobs h1 h2; exact ⟨h1, h2⟩
    | cons x t ih =>
      intro jobs h1 h2
      have hx := no_new_upsert h1 h2 x
      exact ih _ hx.1 hx.2
  obtain ⟨h1, h2⟩ := hstep1 (search_site env.cards env.today) db.jobs hex h
  have h3 := no_new_dna
    { jobs := (search_site env.cards env.today).foldl add_or_update_job db.jobs,
      apps := db.apps } env h1 h2
  unfold run_full_cycle
  by_cases hg : env.gmailConnects = true
  · rw [if_pos hg]
    exact ⟨has_id_of_pidc_eq (gmail_pidc _ _ _) h3.1, no_new_gmail _ _ _ h3.2⟩
  · rw [if_neg hg]
    exact h3

lemma no_new_op {db : DB} {id : String} (hex : has_id db.jobs id)
    (h : no_new db.jobs id) (op : CoreOp) :
    has_id (apply_op db op).jobs id ∧ no_new (apply_op db op).jobs id := by
  cases op with
  | upsert j => exact no_new_upsert hex h j
  | cycle env => exact no_new_cycle hex h env
  | reconcile creds connects msgs =>
    by_cases hc : connects = true
    · have he : apply_op db (CoreOp.reconcile creds connects msgs)
          = { db with jobs := (check_gmail_and_update creds db.jobs msgs).jobs } := by
        simp only [apply_op, hc, if_true]
      rw [he]
      exact ⟨has_id_of_pidc_eq (gmail_pidc _ _ _) hex, no_new_gmail _ _ _ h⟩
    · rw [Bool.not_eq_true] at hc
      have he : apply_op db (CoreOp.reconcile creds connects msgs) = db := by
        simp only [apply_op, hc, Bool.false_eq_true, if_false]
      rw [he]
      exact ⟨hex, h⟩

lemma run_ops_inv {id : String} : ∀ (ops : List CoreOp) (db : DB),
    has_id db.jobs id → no_new db.jobs id →
    has_id (run_ops db ops).jobs id ∧ no_new (run_ops db ops).jobs id := by
  intro ops
  induction ops with
  | nil => intro db h1 h2; exact ⟨h1, h2⟩
  | cons op rest ih =>
    intro db h1 h2
    have hop := no_new_op h1 h2 op
    exact ih _ hop.1 hop.2

/-! ### Lemmas for the reply matcher (claim C2) -/

lemma msgLoop_cons (store : List Job) (upd : List String) (m : MailMsg)
    (rest : List MailMsg) :
    msgLoop store upd (m :: rest)
      = if (matchLoop (extract_msg m.header).1 (extract_msg m.header).2 store upd
            (snap_of store)).2.2 then
          matchLoop (extract_msg m.header).1 (extract_msg m.header).2 store upd (snap_of store)
        else
          msgLoop
            (matchLoop (extract_msg m.header).1 (extract_msg m.header).2 store upd
              (snap_of store)).1
            (matchLoop (extract_msg m.header).1 (extract_msg m.header).2 store upd
              (snap_of store)).2.1 rest := by
  simp only [msgLoop]

lemma matchLoop_norm (frm s : String) : ∀ (pairs : List (String × String))
    (store : List Job) (upd : List String),
    matchLoop frm (SubjVal.pystr s) store upd pairs
      = (applyHits frm s pairs store, upd ++ hitsOf frm s pairs, false) := by
  intro pairs
  induction pairs with
  | nil =>
    intro store upd
    simp [matchLoop, applyHits, foldSet, hitsOf]
  | cons p t ih =>
    intro store upd
    obtain ⟨jid, comp⟩ := p
    by_cases hc : (comp == "") = true
    · rw [matchLoop_cons_empty hc, ih]
      have hhit : hitP frm s (jid, comp) = false := by
        unfold hitP
        simp [bne, hc]
      unfold applyHits hitsOf
      rw [foldSet_cons]
      rw [show hit_upd frm s (jid, comp) = none by unfold hit_upd; rw [hhit]; rfl]
      rw [List.filter_cons_of_neg (by rw [hhit]; exact Bool.false_ne_true)]
    · rw [Bool.not_eq_true] at hc
      by_cases hh : (hasSub (hay frm s) (lowerStr comp)) = true
      · rw [matchLoop_cons_hit hc hh, ih]
        have hhit : hitP frm s (jid, comp) = true := by
          unfold hitP
          simp [bne, hc, hh]
        unfold applyHits hitsOf
        rw [foldSet_cons]
        rw [show hit_upd frm s (jid, comp)
            = some (jid, ("replied" : String), note_of frm s) by
          unfold hit_upd; rw [hhit]; rfl]
        rw [List.filter_cons_of_pos (by rw [hhit])]
        simp [List.append_assoc]
      · rw [Bool.not_eq_true] at hh
        rw [matchLoop_cons_miss hc hh, ih]
        have hhit : hitP frm s (jid, comp) = false := by
          unfold hitP
          rw [hh]
          exact Bool.and_false _
        unfold applyHits hitsOf
        rw [foldSet_cons]
        rw [show hit_upd frm s (jid, comp) = none by unfold hit_upd; rw [hhit]; rfl]
        rw [List.filter_cons_of_neg (by rw [hhit]; exact Bool.false_ne_true)]

lemma hit_upd_some {frm s : String} {p : String × String}
    {q : String × String × String} (h : hit_upd frm s p = some q) :
    q.1 = p.1 ∧ hitP frm s p = true := by
  unfold hit_upd at h
  by_cases hhit : hitP frm s p = true
  · rw [if_pos hhit] at h
    exact ⟨(Option.some.inj h).symm ▸ rfl, hhit⟩
  · rw [if_neg hhit] at h
    cases h

lemma applyHits_skip {frm s : String} {pairs : List (String × String)}
    {jobs : List Job} {r : Job} (hr : r ∈ jobs)
    (h : ∀ p ∈ pairs, p.1 = r.job_id → hitP frm s p = false) :
    r ∈ applyHits frm s pairs jobs := by
  unfold applyHits
  refine foldSet_skip hr ?_
  intro x hx q hq he
  obtain ⟨hq1, hq2⟩ := hit_upd_some hq
  rw [hq1] at he
  rw [h x hx he] at hq2
  cases hq2

lemma applyHits_pidc (frm s : String) (pairs : List (String × String))
    (jobs : List Job) : (applyHits frm s pairs jobs).map pidc = jobs.map pidc := by
  unfold applyHits
  exact foldSet_pidc _ _ _

lemma applyHits_hit {frm s : String} {pairs : List (String × String)}
    {jobs : List Job} {r : Job} {comp : String} (hr : r ∈ jobs)
    (hmem : (r.job_id, comp) ∈ pairs) (hnodup : (pairs.map Prod.fst).Nodup)
    (hhit : hitP frm s (r.job_id, comp) = true) :
    { r with status := "replied", notes := note_of frm s }
      ∈ applyHits frm s pairs jobs := by
  obtain ⟨L₁, L₂, hsplit⟩ := List.append_of_mem hmem
  have hmid : (L₁.map Prod.fst ++ r.job_id :: L₂.map Prod.fst).Nodup := by
    rw [hsplit] at hnodup
    simpa using hnodup
  rw [List.nodup_middle, List.nodup_cons] at hmid
  have hn1 : ∀ y ∈ L₁, y.1 ≠ r.job_id := by
    intro y hy he
    exact hmid.1 (by rw [← he]; exact List.mem_append_left _ (List.mem_map_of_mem _ hy))
  have hn2 : ∀ y ∈ L₂, y.1 ≠ r.job_id := by
    intro y hy he
    exact hmid.1 (by rw [← he]; exact List.mem_append_right _ (List.mem_map_of_mem _ hy))
  unfold applyHits
  rw [hsplit]
  refine foldSet_hit hr ?_ ?_ ?_
  · unfold hit_upd
    rw [hhit]
    rfl
  · intro y hy q hq
    rw [(hit_upd_some hq).1]
    exact hn1 y hy
  · intro y hy q hq
    rw [(hit_upd_some hq).1]
    exact hn2 y hy

lemma hitsOf_count_zero {frm s : String} {pairs : List (String × String)}
    {id : String} (h : ∀ p ∈ pairs, p.1 = id → hitP frm s p = false) :
    (hitsOf frm s pairs).count id = 0 := by
  rw [List.count_eq_zero]
  intro hmem
  obtain ⟨p, hp, hpe⟩ := List.mem_map.mp hmem
  have hp2 := List.mem_filter.mp hp
  rw [h p hp2.1 hpe] at hp2
  cases hp2.2

lemma hitsOf_count_one {frm s : String} {pairs : List (String × String)}
    {id comp : String} (hmem : (id, comp) ∈ pairs)
    (hnodup : (pairs.map Prod.fst).Nodup)
    (hhit : hitP frm s (id, comp) = true) :
    (hitsOf frm s pairs).count id = 1 := by
  have hnd : (hitsOf frm s pairs).Nodup := by
    refine hnodup.sublist ?_
    exact ((List.filter_sublist pairs).map Prod.fst)
  refine List.count_eq_one_of_mem hnd ?_
  unfold hitsOf
  exact List.mem_map.mpr ⟨(id, comp), List.mem_filter.mpr ⟨hmem, hhit⟩, rfl⟩

lemma wellFormed_subj {m : MailMsg} (h : wellFormedMsg m = true) :
    ∃ s, (extract_msg m.header).2 = SubjVal.pystr s := by
  unfold wellFormedMsg at h
  cases hs : (extract_msg m.header).2 with
  | pystr s => exact ⟨s, rfl⟩
  | pybytes s =>
    rw [hs] at h
    cases h

lemma msgMatches_eq {m : MailMsg} {s : String}
    (hs : (extract_msg m.header).2 = SubjVal.pystr s) (company : String) :
    msgMatches m company
      = hasSub (hay (extract_msg m.header).1 s) (lowerStr company) := by
  unfold msgMatches
  rw [show extract_msg m.header = ((extract_msg m.header).1, SubjVal.pystr s) from by
    rw [← hs]]

lemma matchNote_eq {m : MailMsg} {s : String}
    (hs : (extract_msg m.header).2 = SubjVal.pystr s) :
    matchNote m = note_of (extract_msg m.header).1 s := by
  unfold matchNote
  rw [hs]
  rfl

lemma hitP_iff {frm s id company : String} :
    hitP frm s (id, company) = true
      ↔ (company ≠ "" ∧ hasSub (hay frm s) (lowerStr company) = true) := by
  unfold hitP
  simp [bne]

lemma mem_snap_of {store : List Job} {j : Job} (hj : j ∈ store)
    (hel : eligible_status j.status = true) :
    (j.job_id, j.company) ∈ snap_of store := by
  unfold snap_of
  exact List.mem_map_of_mem _ (List.mem_filter.mpr ⟨hj, hel⟩)

lemma snap_of_fst_nodup {store : List Job}
    (hnd : (store.map (fun r => r.job_id)).Nodup) :
    ((snap_of store).map Prod.fst).Nodup := by
  unfold snap_of
  rw [List.map_map]
  exact hnd.sublist ((List.filter_sublist _).map _)

lemma row_uniq {store : List Job} (hnd : (store.map (fun r => r.job_id)).Nodup)
    {x r : Job} (hx : x ∈ store) (hr : r ∈ store) (h : x.job_id = r.job_id) :
    x = r :=
  List.inj_on_of_nodup_map hnd hx hr h

lemma snap_uniq {store : List Job} (hnd : (store.map (fun r => r.job_id)).Nodup)
    {p : String × String} (hp : p ∈ snap_of store) {j : Job} (hj : j ∈ store)
    (hel : eligible_status j.status = true) (hid : p.1 = j.job_id) :
    p = (j.job_id, j.company) :=
  List.inj_on_of_nodup_map (snap_of_fst_nodup hnd) hp (mem_snap_of hj hel) (by rw [hid])

lemma snap_not_mem {store : List Job} (hnd : (store.map (fun r => r.job_id)).Nodup)
    {r : Job} (hr : r ∈ store) (hel : eligible_status r.status = false) :
    ∀ p ∈ snap_of store, p.1 ≠ r.job_id := by
  intro p hp he
  obtain ⟨y, hy, hye⟩ := List.mem_map.mp hp
  have hymem : y ∈ store := (List.mem_filter.mp hy).1
  have hyel : eligible_status y.status = true := (List.mem_filter.mp hy).2
  have hyid : y.job_id = r.job_id := by rw [← he, ← hye]
  have : y = r := row_uniq hnd hymem hr hyid
  rw [this] at hyel
  rw [hel] at hyel
  cases hyel

lemma ids_of_pidc_eq {jobs jobs' : List Job} (h : jobs'.map pidc = jobs.map pidc) :
    jobs'.map (fun r => r.job_id) = jobs.map (fun r => r.job_id) := by
  have h2 := congrArg (List.map Prod.fst) h
  rwa [List.map_map, List.map_map] at h2

lemma matchLoop_frame : ∀ (pairs : List (String × String)) (frm : String)
    (subj : SubjVal) (store : List Job) (upd : List String) {r : Job},
    r ∈ store → (∀ p ∈ pairs, p.1 ≠ r.job_id) →
    r ∈ (matchLoop frm subj store upd pairs).1
    ∧ (matchLoop frm subj store upd pairs).2.1.count r.job_id = upd.count r.job_id := by
  intro pairs
  induction pairs with
  | nil => intro frm subj store upd r hr hne; exact ⟨hr, rfl⟩
  | cons p t ih =>
    intro frm subj store upd r hr hne
    obtain ⟨jid, comp⟩ := p
    have hjid : jid ≠ r.job_id := hne (jid, comp) (List.mem_cons_self _ _)
    have hne2 : ∀ q ∈ t, q.1 ≠ r.job_id := fun q hq => hne q (List.mem_cons_of_mem _ hq)
    by_cases hc : (comp == "") = true
    · rw [matchLoop_cons_empty hc]
      exact ih frm subj store upd hr hne2
    · rw [Bool.not_eq_true] at hc
      cases subj with
      | pybytes sb =>
        rw [matchLoop_cons_bytes hc]
        exact ⟨hr, rfl⟩
      | pystr sb =>
        by_cases hh : (hasSub (hay frm sb) (lowerStr comp)) = true
        · rw [matchLoop_cons_hit hc hh]
          have hr2 : r ∈ set_job_status store jid ("replied") (note_of frm sb) :=
            mem_set_job_status_ne hr (fun he => hjid he.symm) _ _
          have hrec := ih frm (SubjVal.pystr sb) _ (upd ++ [jid]) hr2 hne2
          refine ⟨hrec.1, ?_⟩
          rw [hrec.2, List.count_append]
          have hz : ([jid].count r.job_id) = 0 := by
            rw [List.count_eq_zero]
            intro hmem
            rw [List.mem_singleton] at hmem
            exact hjid hmem.symm
          rw [hz, Nat.add_zero]
        · rw [Bool.not_eq_true] at hh
          rw [matchLoop_cons_miss hc hh]
          exact ih frm _ _ _ hr hne2

lemma msgLoop_no_crash : ∀ (msgs : List MailMsg) (store : List Job)
    (upd : List String), (∀ m ∈ msgs, wellFormedMsg m = true) →
    (msgLoop store upd msgs).2.2 = false := by
  intro msgs
  induction msgs with
  | nil => intro store upd _; rfl
  | cons m rest ih =>
    intro store upd hwf
    obtain ⟨s, hs⟩ := wellFormed_subj (hwf m (List.mem_cons_self _ _))
    by_cases hcr : (matchLoop (extract_msg m.header).1 (extract_msg m.header).2 store upd
        (snap_of store)).2.2 = true
    · rw [hs, matchLoop_norm] at hcr
      simp at hcr
    · rw [msgLoop_cons, if_neg hcr]
      exact ih _ _ (fun m2 hm2 => hwf m2 (List.mem_cons_of_mem _ hm2))

lemma msgLoop_frozen : ∀ (msgs : List MailMsg) (store : List Job)
    (upd : List String) {r : Job}, (store.map (fun x => x.job_id)).Nodup →
    r ∈ store → eligible_status r.status = false →
    r ∈ (msgLoop store upd msgs).1
    ∧ (msgLoop store upd msgs).2.1.count r.job_id = upd.count r.job_id := by
  intro msgs
  induction msgs with
  | nil => intro store upd r hnd hr hel; exact ⟨hr, rfl⟩
  | cons m rest ih =>
    intro store upd r hnd hr hel
    have hne := snap_not_mem hnd hr hel
    have hframe := matchLoop_frame (snap_of store) (extract_msg m.header).1
      (extract_msg m.header).2 store upd hr hne
    by_cases hcr : (matchLoop (extract_msg m.header).1 (extract_msg m.header).2 store upd
        (snap_of store)).2.2 = true
    · rw [msgLoop_cons, if_pos hcr]
      exact hframe
    · rw [msgLoop_cons, if_neg hcr]
      have hnd2 : (((matchLoop (extract_msg m.header).1 (extract_msg m.header).2 store upd
          (snap_of store)).1).map (fun x => x.job_id)).Nodup := by
        rw [ids_of_pidc_eq (matchLoop_pidc _ _ _ _ _)]
        exact hnd
      have hrec := ih (matchLoop (extract_msg m.header).1 (extract_msg m.header).2 store upd
        (snap_of store)).1 (matchLoop (extract_msg m.header).1 (extract_msg m.header).2 store
        upd (snap_of store)).2.1 hnd2 hframe.1 hel
      exact ⟨hrec.1, by rw [hrec.2, hframe.2]⟩

lemma msgLoop_main : ∀ (msgs : List MailMsg) (store : List Job)
    (upd : List String) {j : Job},
    (store.map (fun r => r.job_id)).Nodup →
    (∀ m ∈ msgs, wellFormedMsg m = true) →
    j ∈ store → upd.count j.job_id = 0 →
    ((eligible_status j.status = true ∧ j.company ≠ ""
        ∧ ∃ m ∈ msgs, msgMatches m j.company = true) →
      ∃ m ∈ msgs, msgMatches m j.company = true
        ∧ mark_replied j m ∈ (msgLoop store upd msgs).1
        ∧ (msgLoop store upd msgs).2.1.count j.job_id = 1)
    ∧ (¬(eligible_status j.status = true ∧ j.company ≠ ""
        ∧ ∃ m ∈ msgs, msgMatches m j.company = true) →
      j ∈ (msgLoop store upd msgs).1
      ∧ (msgLoop store upd msgs).2.1.count j.job_id = 0) := by
  intro msgs
  induction msgs with
  | nil =>
    intro store upd j hnd hwf hj hcnt
    constructor
    · rintro ⟨_, _, m, hm, _⟩
      cases hm
    · intro _
      exact ⟨hj, hcnt⟩
  | cons m rest ih =>
    intro store upd j hnd hwf hj hcnt
    obtain ⟨s, hs⟩ := wellFormed_subj (hwf m (List.mem_cons_self _ _))
    have hwfr : ∀ m2 ∈ rest, wellFormedMsg m2 = true :=
      fun m2 hm2 => hwf m2 (List.mem_cons_of_mem _ hm2)
    have hstep : msgLoop store upd (m :: rest)
        = msgLoop (applyHits (extract_msg m.header).1 s (snap_of store) store)
            (upd ++ hitsOf (extract_msg m.header).1 s (snap_of store)) rest := by
      rw [msgLoop_cons, hs, matchLoop_norm]
      rfl
    by_cases hel : eligible_status j.status = true
    · have hjsnap : (j.job_id, j.company) ∈ snap_of store := mem_snap_of hj hel
      have hsnapnd := snap_of_fst_nodup hnd
      have hnd2 : ((applyHits (extract_msg m.header).1 s (snap_of store) store).map
          (fun r => r.job_id)).Nodup := by
        rw [ids_of_pidc_eq (applyHits_pidc _ _ _ _)]
        exact hnd
      by_cases hhit : hitP (extract_msg m.header).1 s (j.job_id, j.company) = true
      · have hcomp : j.company ≠ "" := (hitP_iff.mp hhit).1
        have hmatch : msgMatches m j.company = true := by
          rw [msgMatches_eq hs]
          exact (hitP_iff.mp hhit).2
        have hupd : { j with status := "replied", notes := note_of (extract_msg m.header).1 s } ∈ applyHits (extract_msg m.header).1 s (snap_of store) store :=
          applyHits_hit hj hjsnap hsnapnd hhit
        have hmark : mark_replied j m = { j with status := "replied", notes := note_of (extract_msg m.header).1 s } := by
          unfold mark_replied
          rw [matchNote_eq hs]
        have hcnt1 : (upd ++ hitsOf (extract_msg m.header).1 s (snap_of store)).count
            j.job_id = 1 := by
          rw [List.count_append, hcnt, hitsOf_count_one hjsnap hsnapnd hhit]
        have hel2 : eligible_status ({ j with status := "replied", notes := note_of (extract_msg m.header).1 s } : Job).status = false := by
          show eligible_status ("replied") = false
          decide
        have hfz := msgLoop_frozen rest
          (applyHits (extract_msg m.header).1 s (snap_of store) store)
          (upd ++ hitsOf (extract_msg m.header).1 s (snap_of store)) hnd2 hupd hel2
        rw [hstep]
        constructor
        · intro _
          refine ⟨m, List.mem_cons_self _ _, hmatch, ?_, ?_⟩
          · rw [hmark]
            exact hfz.1
          · rw [hfz.2, hcnt1]
        · intro hncond
          exact absurd ⟨hel, hcomp, m, List.mem_cons_self _ _, hmatch⟩ hncond
      · rw [Bool.not_eq_true] at hhit
        have hskipc : ∀ p ∈ snap_of store, p.1 = j.job_id →
            hitP (extract_msg m.header).1 s p = false := by
          intro p hp he
          rw [snap_uniq hnd hp hj hel he]
          exact hhit
        have hj1 : j ∈ applyHits (extract_msg m.header).1 s (snap_of store) store :=
          applyHits_skip hj hskipc
        have hcnt1 : (upd ++ hitsOf (extract_msg m.header).1 s (snap_of store)).count
            j.job_id = 0 := by
          rw [List.count_append, hcnt, hitsOf_count_zero hskipc]
        have hih := ih (applyHits (extract_msg m.header).1 s (snap_of store) store)
          (upd ++ hitsOf (extract_msg m.header).1 s (snap_of store)) hnd2 hwfr hj1 hcnt1
        rw [hstep]
        constructor
        · rintro ⟨hel3, hcomp3, m2, hm2, hmatch2⟩
          rcases List.mem_cons.mp hm2 with heq | hm2rest
          · exfalso
            have hcontr : hitP (extract_msg m.header).1 s (j.job_id, j.company) = true := by
              refine hitP_iff.mpr ⟨hcomp3, ?_⟩
              rw [← msgMatches_eq hs]
              rw [← heq]
              exact hmatch2
            rw [hhit] at hcontr
            cases hcontr
          · obtain ⟨m3, hm3, hmm, hmem, hcount⟩ := hih.1 ⟨hel3, hcomp3, m2, hm2rest, hmatch2⟩
            exact ⟨m3, List.mem_cons_of_mem _ hm3, hmm, hmem, hcount⟩
        · intro hncond
          refine hih.2 ?_
          rintro ⟨a, b, m2, hm2, c⟩
          exact hncond ⟨a, b, m2, List.mem_cons_of_mem _ hm2, c⟩
    · rw [Bool.not_eq_true] at hel
      have hfz := msgLoop_frozen (m :: rest) store upd hnd hj hel
      constructor
      · rintro ⟨hcontra, _, _⟩
        rw [hel] at hcontra
        cases hcontra
      · intro _
        exact ⟨hfz.1, by rw [hfz.2, hcnt]⟩

/-! ### Claim theorems -/

/-- Claim C1: upsert of a record with an unknown `job_id` (and absent
status/notes) appends exactly one row with status `"new"` and notes `""`;
upsert of a known `job_id` only overwrites the five descriptive columns and
preserves every row's `status`, `notes` and `applied_at`; upserting the same
fresh record twice leaves exactly one row with that `job_id`, its status
unchanged by the second call. -/
theorem c1_upsert (jobs : List Job) (j : JobInput) :
    ((∀ r ∈ jobs, r.job_id ≠ j.job_id) → j.status = none → j.notes = none →
      add_or_update_job jobs j = jobs ++ [new_row j] ∧
      (new_row j).status = "new" ∧ (new_row j).notes = "")
    ∧ ((∃ r ∈ jobs, r.job_id = j.job_id) →
      (add_or_update_job jobs j).map (fun r => (r.job_id, r.status, r.notes, r.applied_at))
        = jobs.map (fun r => (r.job_id, r.status, r.notes, r.applied_at)) ∧
      ∀ r ∈ jobs, r.job_id = j.job_id →
        { r with title := j.title, company := j.company, location := j.location,
                 url := j.url, posted_date := j.posted_date } ∈ add_or_update_job jobs j)
    ∧ ((∀ r ∈ jobs, r.job_id ≠ j.job_id) →
      count_id (add_or_update_job (add_or_update_job jobs j) j) j.job_id = 1 ∧
      status_of (add_or_update_job (add_or_update_job jobs j) j) j.job_id
        = status_of (add_or_update_job jobs j) j.job_id) := by
  refine ⟨?_, ?_, ?_⟩
  · intro hfresh hst hnt
    refine ⟨add_or_update_job_fresh hfresh, ?_, ?_⟩
    · show (j.status.getD ("new")) = "new"
      rw [hst]; rfl
    · show (j.notes.getD ("")) = ""
      rw [hnt]; rfl
  · rintro ⟨r0, hr0, he0⟩
    rw [add_or_update_job_exists r0 hr0 he0]
    constructor
    · rw [List.map_map]
      refine List.map_congr_left (fun r _ => ?_)
      show (fun r => (r.job_id, r.status, r.notes, r.applied_at)) (desc_upd j r) = _
      have h := desc_upd_keeps j r
      simp only [h.1, h.2.1, h.2.2.1, h.2.2.2]
    · intro r hr he
      have h := List.mem_map_of_mem (desc_upd j) hr
      rwa [desc_upd_match he] at h
  · intro hfresh
    have h1 : add_or_update_job jobs j = jobs ++ [new_row j] := add_or_update_job_fresh hfresh
    have hmem : new_row j ∈ add_or_update_job jobs j := by
      rw [h1]; exact List.mem_append_right _ (List.mem_singleton.mpr rfl)
    have h2 : add_or_update_job (add_or_update_job jobs j) j
        = (add_or_update_job jobs j).map (desc_upd j) :=
      add_or_update_job_exists (new_row j) hmem rfl
    constructor
    · rw [h2, count_id_map_of_keep (fun r => (desc_upd_keeps j r).1), h1]
      unfold count_id
      rw [List.filter_append]
      have hnil : jobs.filter (fun r => r.job_id == j.job_id) = [] := by
        rw [List.filter_eq_nil_iff]
        intro r hr
        simpa using hfresh r hr
      rw [hnil]
      simp [new_row]
    · rw [h2]
      exact status_of_map_of_keep (fun r => (desc_upd_keeps j r).1)
        (fun r => (desc_upd_keeps j r).2.1) _ _

/-- Claim C1 witness: instantiating the theorem on the empty store and the
Acme record: the insert appends one `"new"` row, and after upserting the
same record twice exactly one row with that id remains, status unchanged. -/
theorem c1_upsert_witness :
    add_or_update_job [] acmeInput = [new_row acmeInput] ∧
    (new_row acmeInput).status = "new" ∧
    count_id (add_or_update_job (add_or_update_job [] acmeInput) acmeInput)
      acmeInput.job_id = 1 := by
  have h := c1_upsert [] acmeInput
  have hA := h.1 (by intro r hr; cases hr) rfl rfl
  exact ⟨hA.1, hA.2.1, (h.2.2 (by intro r hr; cases hr)).1⟩

/-- Claim C8: `set_job_status` is a no-op (no error, store unchanged) when
no row carries the `job_id`; when rows do, it overwrites exactly their
`status` and `notes`, leaves every other row untouched, and never changes
the number of rows. -/
theorem c8_set_status (jobs : List Job) (id st n : String) :
    ((∀ r ∈ jobs, r.job_id ≠ id) → set_job_status jobs id st n = jobs)
    ∧ (∀ r ∈ jobs, r.job_id = id →
        { r with status := st, notes := n } ∈ set_job_status jobs id st n)
    ∧ (∀ r ∈ jobs, r.job_id ≠ id → r ∈ set_job_status jobs id st n)
    ∧ (set_job_status jobs id st n).length = jobs.length := by
  refine ⟨?_, ?_, ?_, ?_⟩
  · intro h
    unfold set_job_status
    have : jobs.map (set_upd id st n) = jobs.map (fun r => r) :=
      List.map_congr_left (fun r hr => by unfold set_upd; simp [h r hr])
    rw [this, List.map_id']
  · intro r hr he
    exact mem_set_job_status_eq hr he st n
  · intro r hr hne
    exact mem_set_job_status_ne hr hne st n
  · exact List.length_map _ _

/-- Claim C8 witness: on a one-row store, updating an absent id is a no-op
and updating the present id overwrites status and notes. -/
theorem c8_set_status_witness :
    set_job_status [acmeJob] "missing" "replied" "x" = [acmeJob] ∧
    { acmeJob with status := "replied", notes := "x" }
      ∈ set_job_status [acmeJob] "Acme|SWE|https://x/1" "replied" "x" := by
  constructor
  · exact (c8_set_status [acmeJob] "missing" "replied" "x").1 (by decide)
  · exact (c8_set_status [acmeJob] "Acme|SWE|https://x/1" "replied" "x").2.1 acmeJob
      (List.mem_singleton.mpr rfl) rfl

/-- Claim C2: in one completed reconcile pass over well-formed messages
(store ids unique), a job is updated exactly when its status is outside
{replied, hired, closed}, its company is non-empty and the company occurs
case-insensitively in some fetched message's From-and-Subject haystack;
an updated job's row is marked `"replied"` with notes built from the
matched subject and sender; jobs whose status is in the exclusion set are
never touched; and every job is updated at most once per call. -/
theorem c2_reply_matcher (store : List Job) (msgs : List MailMsg) (j : Job)
    (hnd : (store.map (fun r => r.job_id)).Nodup)
    (hwf : ∀ m ∈ msgs, wellFormedMsg m = true)
    (hj : j ∈ store) :
    (j.job_id ∈ (check_gmail_and_update true store msgs).updated
      ↔ (eligible_status j.status = true ∧ j.company ≠ ""
          ∧ ∃ m ∈ msgs, msgMatches m j.company = true))
    ∧ (j.job_id ∈ (check_gmail_and_update true store msgs).updated →
        ∃ m ∈ msgs, msgMatches m j.company = true
          ∧ mark_replied j m ∈ (check_gmail_and_update true store msgs).jobs)
    ∧ ((j.status = "replied" ∨ j.status = "hired" ∨ j.status = "closed") →
        j ∈ (check_gmail_and_update true store msgs).jobs)
    ∧ (check_gmail_and_update true store msgs).updated.count j.job_id ≤ 1 := by
  by_cases hempty : msgs.isEmpty = true
  · have hmsgs : msgs = [] := by
      cases msgs with
      | nil => rfl
      | cons a t => cases hempty
    subst hmsgs
    have hu : (check_gmail_and_update true store []).updated = [] := rfl
    have hjobs : (check_gmail_and_update true store []).jobs = store := rfl
    rw [hu, hjobs]
    refine ⟨?_, ?_, ?_, ?_⟩
    · constructor
      · intro hmem
        cases hmem
      · rintro ⟨_, _, m, hm, _⟩
        cases hm
    · intro hmem
      cases hmem
    · intro _
      exact hj
    · rw [List.count_nil]
      exact Nat.zero_le 1
  · have hu : (check_gmail_and_update true store msgs).updated
        = (msgLoop store [] msgs).2.1 := by
      unfold check_gmail_and_update
      rw [if_pos rfl, if_neg hempty]
    have hjobs : (check_gmail_and_update true store msgs).jobs
        = (msgLoop store [] msgs).1 := by
      unfold check_gmail_and_update
      rw [if_pos rfl, if_neg hempty]
    rw [hu, hjobs]
    have hmain := msgLoop_main msgs store [] hnd hwf hj (List.count_nil _)
    have hiff : j.job_id ∈ (msgLoop store [] msgs).2.1
        ↔ (eligible_status j.status = true ∧ j.company ≠ ""
            ∧ ∃ m ∈ msgs, msgMatches m j.company = true) := by
      constructor
      · intro hmem
        by_contra hncond
        have h0 := hmain.2 hncond
        have hpos := List.count_pos_iff.mpr hmem
        rw [h0.2] at hpos
        cases hpos
      · intro hcond
        obtain ⟨m, hm, hmm, hmem, hcount⟩ := hmain.1 hcond
        refine List.count_pos_iff.mp ?_
        rw [hcount]
        exact Nat.one_pos
    refine ⟨hiff, ?_, ?_, ?_⟩
    · intro hmem
      obtain ⟨m, hm, hmm, hmemr, _⟩ := hmain.1 (hiff.mp hmem)
      exact ⟨m, hm, hmm, hmemr⟩
    · intro hst
      have helF : eligible_status j.status = false := by
        rcases hst with h | h | h
        · rw [h]; decide
        · rw [h]; decide
        · rw [h]; decide
      refine (hmain.2 ?_).1
      rintro ⟨hcontr, _, _⟩
      rw [helF] at hcontr
      cases hcontr
    · by_cases hcond : (eligible_status j.status = true ∧ j.company ≠ ""
          ∧ ∃ m ∈ msgs, msgMatches m j.company = true)
      · obtain ⟨_, _, _, _, hcount⟩ := hmain.1 hcond
        rw [hcount]
      · rw [(hmain.2 hcond).2]
        exact Nat.zero_le 1

/-- Claim C2 witness: the spec's scenario — an Acme job in status `new`
and a reply from `hr@acme.com` — discharged concretely: the job is updated,
and at most once. -/
theorem c2_reply_matcher_witness :
    acmeJob.job_id ∈ (check_gmail_and_update true [acmeJob] [acmeMsg]).updated ∧
    (check_gmail_and_update true [acmeJob] [acmeMsg]).updated.count acmeJob.job_id ≤ 1 := by
  have h := c2_reply_matcher [acmeJob] [acmeMsg] acmeJob (by decide) (by decide)
    (List.mem_singleton.mpr rfl)
  exact ⟨h.1.mpr (by decide), h.2.2.2⟩

/-- Claim C3: for a job already present in the store whose rows are not in
status `"new"`, no sequence of core operations (upsert, full cycle,
reconcile) ever sets its status back to `"new"`; in particular a job in
`replied`/`hired`/`closed` never returns to `new`. -/
theorem c3_status_monotonic (db : DB) (id : String) (ops : List CoreOp)
    (hex : ∃ r ∈ db.jobs, r.job_id = id)
    (h : ∀ r ∈ db.jobs, r.job_id = id → r.status ≠ "new") :
    ∀ r ∈ (run_ops db ops).jobs, r.job_id = id → r.status ≠ "new" :=
  (run_ops_inv ops db hex h).2

/-- Claim C3 witness: a store holding the replied Acme job, subjected to a
reconcile against a matching message and a re-upsert of the same record:
the job's row is still present and not `"new"`. -/
theorem c3_status_monotonic_witness :
    repliedJob ∈ (run_ops { jobs := [repliedJob], apps := [] }
      [CoreOp.reconcile true true [acmeMsg], CoreOp.upsert acmeInput]).jobs ∧
    repliedJob.status ≠ "new" := by
  refine ⟨by decide, ?_⟩
  exact c3_status_monotonic { jobs := [repliedJob], apps := [] } ("Acme|SWE|https://x/1")
    [CoreOp.reconcile true true [acmeMsg], CoreOp.upsert acmeInput]
    ⟨repliedJob, by decide, by decide⟩ (by decide) repliedJob (by decide) (by decide)

/-- Claim C4: the draft-and-apply stage of `run_full_cycle` processes
exactly the jobs whose status is `"new"` in its opening snapshot: the
transition log lists precisely the snapshot's job ids; each such job gains
exactly one Application row and exactly one logged status transition, and
its row ends in status `transStatus`; in auto mode an executor outcome
`manual_required` yields `queued_manual` (not `"error"`) and `applied`
yields `applied`; in manual mode every new job moves to `queued_manual`
with an Application row whose result is `queued_for_manual`.  Jobs not in
status `"new"` are untouched: no transition, no Application row, row kept
verbatim. -/
theorem c4_draft_and_apply (db : DB) (env : CycleEnv)
    (hnd : (db.jobs.map (fun r => r.job_id)).Nodup) :
    ((run_draft_and_apply db env).2.map Prod.fst
        = (db.jobs.filter (fun r => r.status == "new")).map (fun r => r.job_id))
    ∧ (∀ r ∈ db.jobs, r.status = "new" →
        (((run_draft_and_apply db env).1.apps.filter
            (fun a => a.job_id == r.job_id)).length
          = (db.apps.filter (fun a => a.job_id == r.job_id)).length + 1)
        ∧ (((run_draft_and_apply db env).2.filter
            (fun e => e.1 == r.job_id)).length = 1)
        ∧ ({ r with status := transStatus env r, notes := transNotes env r }
            ∈ (run_draft_and_apply db env).1.jobs)
        ∧ (env.autoMode = true → (exec_result env r).result = "manual_required" →
            transStatus env r = "queued_manual")
        ∧ (env.autoMode = true → (exec_result env r).result = "applied" →
            transStatus env r = "applied")
        ∧ (env.autoMode = false → transStatus env r = "queued_manual"
            ∧ app_row env r ∈ (run_draft_and_apply db env).1.apps
            ∧ (app_row env r).result = "queued_for_manual"))
    ∧ (∀ r ∈ db.jobs, r.status ≠ "new" →
        r ∈ (run_draft_and_apply db env).1.jobs
        ∧ (∀ e ∈ (run_draft_and_apply db env).2, e.1 ≠ r.job_id)
        ∧ ((run_draft_and_apply db env).1.apps.filter
            (fun a => a.job_id == r.job_id)).length
          = (db.apps.filter (fun a => a.job_id == r.job_id)).length) := by
  have hloop := dnaLoop_eq env (db.jobs.filter (fun r => r.status == "new")) db
  have hout : run_draft_and_apply db env
      = ({ jobs := dnaJobs env (db.jobs.filter (fun r => r.status == "new")) db.jobs,
           apps := db.apps
             ++ (db.jobs.filter (fun r => r.status == "new")).map (app_row env) },
         (db.jobs.filter (fun r => r.status == "new")).map
           (fun r => (r.job_id, transStatus env r))) := hloop
  have hsubids : ((db.jobs.filter (fun r => r.status == "new")).map
      (fun r => r.job_id)).Nodup :=
    hnd.sublist ((List.filter_sublist _).map _)
  refine ⟨?_, ?_, ?_⟩
  · rw [hout]
    rw [List.map_map]
    rfl
  · intro r hr hrs
    have hrsnap : r ∈ db.jobs.filter (fun r => r.status == "new") :=
      List.mem_filter.mpr ⟨hr, by simp [hrs]⟩
    have hcount1 : count_id (db.jobs.filter (fun r => r.status == "new")) r.job_id = 1 := by
      rw [count_id_eq_count]
      exact List.count_eq_one_of_mem hsubids (List.mem_map_of_mem _ hrsnap)
    refine ⟨?_, ?_, ?_, ?_, ?_, ?_⟩
    · rw [hout]
      simp only [List.filter_append, List.length_append]
      rw [@count_fst_map_of_keep AppRow (app_row env) (fun a => a.job_id)
            (fun y => rfl) (db.jobs.filter (fun s => s.status == "new")) r.job_id,
          hcount1]
    · rw [hout]
      dsimp only
      rw [@count_fst_map_of_keep (String × String)
            (fun y => (y.job_id, transStatus env y)) Prod.fst (fun y => rfl)
            (db.jobs.filter (fun s => s.status == "new")) r.job_id,
          hcount1]
    · rw [hout]
      show _ ∈ dnaJobs env (db.jobs.filter (fun r => r.status == "new")) db.jobs
      obtain ⟨L₁, L₂, hsplit⟩ := List.append_of_mem hrsnap
      have hmid : (L₁.map (fun y => y.job_id)
          ++ r.job_id :: L₂.map (fun y => y.job_id)).Nodup := by
        rw [hsplit] at hsubids
        simpa using hsubids
      rw [List.nodup_middle, List.nodup_cons] at hmid
      have hn1 : ∀ y ∈ L₁, y.job_id ≠ r.job_id := by
        intro y hy he
        exact hmid.1 (by rw [← he]; exact List.mem_append_left _ (List.mem_map_of_mem _ hy))
      have hn2 : ∀ y ∈ L₂, y.job_id ≠ r.job_id := by
        intro y hy he
        exact hmid.1 (by rw [← he]; exact List.mem_append_right _ (List.mem_map_of_mem _ hy))
      unfold dnaJobs
      rw [hsplit]
      refine foldSet_hit hr rfl ?_ ?_
      · intro y hy p hp
        have hp2 := Option.some.inj hp
        rw [← hp2]
        exact hn1 y hy
      · intro y hy p hp
        have hp2 := Option.some.inj hp
        rw [← hp2]
        exact hn2 y hy
    · intro ha hm
      unfold transStatus
      rw [ha]
      simp [hm]
    · intro ha hm
      unfold transStatus
      rw [ha]
      simp [hm]
    · intro ha
      refine ⟨transStatus_manual ha r, ?_, ?_⟩
      · rw [hout]
        exact List.mem_append_right _ (List.mem_map_of_mem _ hrsnap)
      · unfold app_row appResultStr
        rw [ha]
        rfl
  · intro r hr hrs
    have hnotin : ∀ y ∈ db.jobs.filter (fun s => s.status == "new"),
        y.job_id ≠ r.job_id := by
      intro y hy he
      have hymem : y ∈ db.jobs := (List.mem_filter.mp hy).1
      have hyst : y.status = "new" := by simpa using (List.mem_filter.mp hy).2
      have hyr : y = r := List.inj_on_of_nodup_map hnd hymem hr he
      rw [hyr] at hyst
      exact hrs hyst
    refine ⟨?_, ?_, ?_⟩
    · rw [hout]
      show r ∈ dnaJobs env (db.jobs.filter (fun s => s.status == "new")) db.jobs
      unfold dnaJobs
      refine foldSet_skip hr ?_
      intro y hy p hp
      have hp2 := Option.some.inj hp
      rw [← hp2]
      exact hnotin y hy
    · rw [hout]
      intro e he
      obtain ⟨y, hy, hye⟩ := List.mem_map.mp he
      rw [← hye]
      exact hnotin y hy
    · rw [hout]
      simp only [List.filter_append, List.length_append]
      have hzero : r.job_id
          ∉ (db.jobs.filter (fun s => s.status == "new")).map (fun s => s.job_id) := by
        intro hmem
        obtain ⟨y, hy, hye⟩ := List.mem_map.mp hmem
        exact hnotin y hy hye
      rw [@count_fst_map_of_keep AppRow (app_row env) (fun a => a.job_id)
            (fun y => rfl) (db.jobs.filter (fun s => s.status == "new")) r.job_id,
          count_id_eq_count, List.count_eq_zero.mpr hzero]
      exact Nat.add_zero _

/-- Claim C4 witness: on a one-new-job store in manual mode, the job's row
ends in `queued_manual` with the awaiting-approval notes (all hypotheses of
the theorem discharged concretely). -/
theorem c4_draft_and_apply_witness :
    { acmeJob with status := "queued_manual", notes := "Awaiting manual approval to apply" }
      ∈ (run_draft_and_apply dbAcme manualEnv).1.jobs ∧
    ((run_draft_and_apply dbAcme manualEnv).2.filter
        (fun e => e.1 == acmeJob.job_id)).length = 1 := by
  have h := c4_draft_and_apply dbAcme manualEnv (by decide)
  have h2 := h.2.1 acmeJob (by exact List.mem_singleton.mpr rfl) rfl
  exact ⟨h2.2.2.1, h2.2.1⟩

/-- Claim C9: a scraped listing record is passed on exactly when its
posted-date text contains, case-insensitively, one of `"today"`,
`"just posted"`, `"1 day"`; every other record — including empty posted-date
text and `"2 days ago"` — is discarded before reaching the store. -/
theorem c9_recency_filter :
    (∀ (p : String), recent_posted p
      = (hasSub (lowerStr p) ("today") || hasSub (lowerStr p) ("just posted")
          || hasSub (lowerStr p) ("1 day")))
    ∧ (∀ (cards : List RawCard) (today : String), search_site cards today
      = (cards.filter (fun c => hasSub (lowerStr c.posted) ("today")
          || hasSub (lowerStr c.posted) ("just posted")
          || hasSub (lowerStr c.posted) ("1 day"))).map (fun c => card_record c today))
    ∧ recent_posted ("2 days ago") = false ∧ recent_posted ("") = false := by
  have hreq : ∀ (p : String), recent_posted p
      = (hasSub (lowerStr p) ("today") || hasSub (lowerStr p) ("just posted")
          || hasSub (lowerStr p) ("1 day")) := by
    intro p
    by_cases hp : p = ""
    · subst hp; decide
    · unfold recent_posted
      rw [show (p != "") = true by simp [hp], Bool.true_and]
  refine ⟨hreq, ?_, by decide, by decide⟩
  intro cards today
  unfold search_site
  rw [List.filter_congr (fun c _ => hreq c.posted)]

/-- Claim C5 counterexample: on a job whose url is present, when the
browser session cannot be established the executor returns the tag
`"selenium_error"`, which is none of the four tags the claim allows — in
particular it is not `"automation_error"`. -/
theorem c5_counterexample :
    (apply_to_job (some ("https://x/1")) deadDriver).result = "selenium_error" ∧
    (apply_to_job (some ("https://x/1")) deadDriver).result ≠ "applied" ∧
    (apply_to_job (some ("https://x/1")) deadDriver).result ≠ "manual_required" ∧
    (apply_to_job (some ("https://x/1")) deadDriver).result ≠ "no_url" ∧
    (apply_to_job (some ("https://x/1")) deadDriver).result ≠ "automation_error" := by
  decide

/-- Claim C5 as amended: the executor's result tag is always one of
`applied`, `manual_required`, `no_url`, `selenium_error`; it is `no_url`
exactly when the job's url is falsy (absent or empty), and a session
failure on a present url yields `selenium_error` (which the orchestrator
then records as status `"error"`). -/
theorem c5_amended (url : Option String) (env : SeleniumEnv) :
    ((apply_to_job url env).result = "applied" ∨
     (apply_to_job url env).result = "manual_required" ∨
     (apply_to_job url env).result = "no_url" ∨
     (apply_to_job url env).result = "selenium_error")
    ∧ ((apply_to_job url env).result = "no_url" ↔ (url = none ∨ url = some ("")))
    ∧ (∀ u, url = some u → u ≠ "" → env.driverOk = false →
        (apply_to_job url env).result = "selenium_error") := by
  cases url with
  | none =>
    refine ⟨Or.inr (Or.inr (Or.inl rfl)), by simp [apply_to_job], ?_⟩
    intro u hu
    cases hu
  | some u =>
    by_cases hu : u = ""
    · subst hu
      have he : apply_to_job (some ("")) env = { result := "no_url", detail := none } := by
        unfold apply_to_job
        rfl
      refine ⟨by rw [he]; exact Or.inr (Or.inr (Or.inl rfl)), by rw [he]; simp, ?_⟩
      intro u' hu' hne _
      exact absurd (Option.some.inj hu').symm hne
    · have hbeq : (u == "") = false := by simp [hu]
      by_cases hd : env.driverOk
      · by_cases hf : env.fileStageOk
        · have he : (apply_to_job (some u) env).result = "applied" := by
            unfold apply_to_job
            simp [hbeq, hd, hf]
          refine ⟨Or.inl he, by rw [he]; simp [hu], ?_⟩
          intro u' hu' hne hdrv
          rw [hdrv] at hd
          cases hd
        · have he : (apply_to_job (some u) env).result = "manual_required" := by
            unfold apply_to_job
            simp [hbeq, hd, hf]
          refine ⟨Or.inr (Or.inl he), by rw [he]; simp [hu], ?_⟩
          intro u' hu' hne hdrv
          rw [hdrv] at hd
          cases hd
      · have he : (apply_to_job (some u) env).result = "selenium_error" := by
          unfold apply_to_job
          simp [hbeq, hd]
        refine ⟨Or.inr (Or.inr (Or.inr he)), by rw [he]; simp [hu], ?_⟩
        intro u' hu' hne hdrv
        exact he

/-- Claim C5 amended witness: the three hypotheses of the session-failure
conjunct discharged on a concrete url and dead driver. -/
theorem c5_amended_witness :
    (apply_to_job (some ("https://x/1")) deadDriver).result = "selenium_error" ∧
    (apply_to_job none deadDriver).result = "no_url" := by
  constructor
  · exact (c5_amended (some ("https://x/1")) deadDriver).2.2 "https://x/1" rfl
      (by decide) (by decide)
  · exact (c5_amended none deadDriver).2.1.mpr (Or.inl rfl)

/-- Claim C7 counterexample: a reconcile call that completes and updates
exactly one job still returns `None` (no count), so the returned value is
not the number of updated jobs. -/
theorem c7_counterexample :
    (check_gmail_and_update true [acmeJob] [acmeMsg]).crashed = false ∧
    (check_gmail_and_update true [acmeJob] [acmeMsg]).updated.length = 1 ∧
    (check_gmail_and_update true [acmeJob] [acmeMsg]).ret
      ≠ some ((check_gmail_and_update true [acmeJob] [acmeMsg]).updated.length) := by
  decide

/-- Claim C7 as amended: `check_gmail_and_update` has no return statement
with a value; every call — whatever it updates — returns `None`, so the
count of updated jobs is not reported to the caller. -/
theorem c7_amended (creds : Bool) (store : List Job) (msgs : List MailMsg) :
    (check_gmail_and_update creds store msgs).ret = none := by
  unfold check_gmail_and_update
  cases creds with
  | false => rfl
  | true =>
    by_cases h : msgs.isEmpty
    · simp [h]
    · simp [h]

/-- Claim C6, evaluated at the failing input: a fetched header blob that
contains a `From:` line but no `Subject:` line leaves the `b""` bytes
initialiser in `subject_raw`; matching it against an eligible job with a
non-empty company evaluates `str + bytes`, so the reconcile call crashes
with a `TypeError` instead of treating the subject as an empty string and
continuing.  (A header blob that is missing entirely *is* handled: the
`except` branch yields empty strings and the call completes.) -/
theorem c6_header_crash :
    (check_gmail_and_update true [acmeJob] [noSubjectMsg]).crashed = true ∧
    (check_gmail_and_update true [acmeJob] [noSubjectMsg]).updated = [] ∧
    (check_gmail_and_update true [acmeJob] [{ header := none }]).crashed = false ∧
    extract_msg none = ("", SubjVal.pystr ("")) := by
  decide

end JobAgent
